import Mathlib

/-!
# Shallow embedding of the knxrpc event-distribution core

This development models the subscriber/sniffer registry, the dispatch
algorithm, the `Subscribe` stream lifecycle, the `SubscribeUnary`
aggregator and the `Publish` loop-back of the knxrpc server
(`helper.go`, `knx.go`, `mapper.go`, `rpcs.go`), and proves the
specification claims about them.

Modelling conventions:
* `cemi.GroupAddr` (uint16) and `cemi.IndividualAddr` are modelled as `Nat`
  (only identity/comparability is used by the core).
* A `*connect.ServerStream` pointer is modelled by a `Nat` stream identity;
  the code compares streams only by pointer equality.
* The Go map `map[cemi.GroupAddr][]*subscriber` is modelled as a function
  `GroupAddr → Option (List Subscriber)`; `none` models key absence
  (`_, ok := m[a]` with `ok = false`).
* Effects of a dispatch pass are modelled as an explicit trace of
  `DispatchAction`s (a successful `stream.Send` or a logged send failure);
  whether a sink's `Send` succeeds is an oracle `sendOk : Nat → Bool`, the
  peer label used in log lines is an oracle `peerOf : Nat → String`.
* Context/cancellation outcomes are passed as explicit parameters
  (which branch of a `select` fired, whether the tunnel send failed, the
  finite list of inbound events read before the context was cancelled).
-/

namespace Knxrpc

/-- `v1.Event` enum of the protobuf API:
UNSPECIFIED, READ, RESPONSE, WRITE. -/
inductive V1Event where
  | unspecified
  | read
  | response
  | write
deriving DecidableEq, Repr

/-- KNX group address (`cemi.GroupAddr`, a uint16); modelled as `Nat`. -/
abbrev GroupAddr := Nat

/-- KNX individual address (`cemi.IndividualAddr`); modelled as `Nat`. -/
abbrev IndividualAddr := Nat

/-- `knx.GroupRead` command constant of the bus library (uint8 value 0). -/
def GroupRead : Nat := 0

/-- `knx.GroupResponse` command constant of the bus library (uint8 value 1). -/
def GroupResponse : Nat := 1

/-- `knx.GroupWrite` command constant of the bus library (uint8 value 2). -/
def GroupWrite : Nat := 2

/-- `knx.GroupEvent`: a bus event. `command` is the uint8-valued
`knx.GroupCommand`, kept as a `Nat` because the dispatcher converts events
with arbitrary command values coming from the bus. -/
structure GroupEvent where
  command : Nat
  source : IndividualAddr
  destination : GroupAddr
  data : List Nat
deriving DecidableEq, Repr

/-- `v1.SubscribeResponse`: the message delivered to a subscriber stream. -/
structure SubscribeResponse where
  groupAddress : GroupAddr
  physicalAddress : IndividualAddr
  event : V1Event
  data : List Nat
deriving DecidableEq, Repr

/-- The part of `v1.SubscribeRequest` consulted by the registry and the
dispatcher: the event-kind filter. The requested group addresses are
handled at the `Subscribe` call level as an already-parsed address list. -/
structure SubscribeRequest where
  event : V1Event
deriving DecidableEq, Repr

/-- The `subscriber` struct of `server.go`/`helper.go`: the request it was
registered with and its stream (identified, as in the code, by pointer
identity — here a `Nat`). -/
structure Subscriber where
  req : SubscribeRequest
  stream : Nat
deriving DecidableEq, Repr

/-- Default subscriber value (used only as the `getLastD` fallback on
branches that are guarded by non-emptiness). -/
def dummySub : Subscriber := ⟨⟨V1Event.unspecified⟩, 0⟩

/-- `toV1SubscribeResponse` of `mapper.go`: converts a bus event into the
wire message. The Go code initialises `Event` to `EVENT_UNSPECIFIED` and
overrides it in a `switch` over the three known commands, so any other
command value keeps `EVENT_UNSPECIFIED`. -/
def toV1SubscribeResponse (event : GroupEvent) : SubscribeResponse :=
  { groupAddress := event.destination
    physicalAddress := event.source
    event :=
      if event.command = GroupRead then V1Event.read
      else if event.command = GroupResponse then V1Event.response
      else if event.command = GroupWrite then V1Event.write
      else V1Event.unspecified
    data := event.data }

/-- The subscribers map `map[cemi.GroupAddr][]*subscriber`;
`none` models absence of the key. -/
abbrev SubMap := GroupAddr → Option (List Subscriber)

/-- Go map store `m[address] = subs`. -/
def mapSet (m : SubMap) (address : GroupAddr) (subs : List Subscriber) : SubMap :=
  fun t => if t = address then some subs else m t

/-- Go map `delete(m, address)`. -/
def mapDelete (m : SubMap) (address : GroupAddr) : SubMap :=
  fun t => if t = address then none else m t

/-- Registry state of the `Server`: the topic-keyed subscribers map and the
sniffers slice (each guarded by its own mutex in the code; the lock
discipline itself is not modelled). -/
structure RegistryState where
  subscribers : SubMap
  sniffers : List Subscriber

/-- The registry of a freshly started server: empty map, empty slice. -/
def emptyRegistry : RegistryState := ⟨fun _ => none, []⟩

/-- One iteration of the `registerSubscriber` loop in `helper.go`:
load the slice (empty if the key is absent), append the subscriber,
store it back. -/
def registerSubscriberStep (sub : Subscriber) (m : SubMap) (address : GroupAddr) : SubMap :=
  mapSet m address ((m address).getD [] ++ [sub])

/-- `Server.registerSubscriber` of `helper.go`: appends `⟨req, stream⟩` to
`subscribers[address]` for each requested address. -/
def registerSubscriber (addresses : List GroupAddr) (req : SubscribeRequest)
    (stream : Nat) (st : RegistryState) : RegistryState :=
  { st with subscribers := addresses.foldl (registerSubscriberStep ⟨req, stream⟩) st.subscribers }

/-- The swap-remove loop shared by `unregisterSubscriber` and
`unregisterSniffer`: find the first element with the given stream, move
the last element into its position, drop the last element; if no element
matches, the slice is returned unchanged. -/
def swapRemoveFirst (subs : List Subscriber) (stream : Nat) : List Subscriber :=
  match subs.findIdx? (fun x => x.stream = stream) with
  | none => subs
  | some i => (subs.set i (subs.getLastD dummySub)).dropLast

/-- One iteration of the `unregisterSubscriber` loop in `helper.go` for a
single address: missing key is ignored; if the last element of the slice
is this stream, the slice is resliced (and the key deleted if it becomes
empty); otherwise the swap-remove loop runs and the result is stored back
unconditionally. -/
def unregisterSubscriberStep (stream : Nat) (m : SubMap) (address : GroupAddr) : SubMap :=
  match m address with
  | none => m
  | some subs =>
    if subs ≠ [] ∧ (subs.getLastD dummySub).stream = stream then
      let rest := subs.dropLast
      if rest ≠ [] then mapSet m address rest
      else mapDelete m address
    else
      mapSet m address (swapRemoveFirst subs stream)

/-- `Server.unregisterSubscriber` of `helper.go`. -/
def unregisterSubscriber (addresses : List GroupAddr) (stream : Nat)
    (st : RegistryState) : RegistryState :=
  { st with subscribers := addresses.foldl (unregisterSubscriberStep stream) st.subscribers }

/-- `Server.registerSniffer` of `helper.go`: append to the sniffers slice. -/
def registerSniffer (req : SubscribeRequest) (stream : Nat) (st : RegistryState) : RegistryState :=
  { st with sniffers := st.sniffers ++ [⟨req, stream⟩] }

/-- `Server.unregisterSniffer` of `helper.go`: reslice if the stream is the
last element, otherwise swap-remove it. -/
def unregisterSniffer (stream : Nat) (st : RegistryState) : RegistryState :=
  if st.sniffers ≠ [] ∧ (st.sniffers.getLastD dummySub).stream = stream then
    { st with sniffers := st.sniffers.dropLast }
  else
    { st with sniffers := swapRemoveFirst st.sniffers stream }

/-- Observable effect of one dispatch iteration: a successful
`stream.Send(resp)`, or the error log line (with the sink's peer label)
written when the send fails. A subscriber skipped by the kind filter
produces no action. -/
inductive DispatchAction where
  | sent (sub : Subscriber) (resp : SubscribeResponse)
  | logFailure (peer : String) (sub : Subscriber)
deriving DecidableEq, Repr

/-- One iteration of the fan-out loops of `dispatchToSubscribers` /
`dispatchToSniffers` in `knx.go`: skip when the kind filter rejects
(`sub.req.Event != EVENT_UNSPECIFIED && sub.req.Event != resp.Event`),
otherwise attempt the send; a failed send is logged with the peer label
and the loop continues. -/
def dispatchSendOne (sendOk : Nat → Bool) (peerOf : Nat → String)
    (resp : SubscribeResponse) (sub : Subscriber) : Option DispatchAction :=
  if sub.req.event ≠ V1Event.unspecified ∧ sub.req.event ≠ resp.event then none
  else if sendOk sub.stream then some (.sent sub resp)
  else some (.logFailure (peerOf sub.stream) sub)

/-- The sequential fan-out over a slice of subscribers, as the trace of
actions it produces. -/
def dispatchPhase (sendOk : Nat → Bool) (peerOf : Nat → String)
    (subs : List Subscriber) (resp : SubscribeResponse) : List DispatchAction :=
  subs.filterMap (dispatchSendOne sendOk peerOf resp)

/-- `Server.dispatchToSubscribers` of `knx.go`: look up the event's
destination in the subscribers map (no subscribers → return nil), convert
the event once, fan out. Returns the (unchanged) registry, the action
trace, and the Go error result (always nil). -/
def dispatchToSubscribers (sendOk : Nat → Bool) (peerOf : Nat → String)
    (st : RegistryState) (event : GroupEvent) :
    RegistryState × List DispatchAction × Option String :=
  match st.subscribers event.destination with
  | none => (st, [], none)
  | some subs => (st, dispatchPhase sendOk peerOf subs (toV1SubscribeResponse event), none)

/-- `Server.dispatchToSniffers` of `knx.go`: empty sniffer slice → return
nil; otherwise convert the event and fan out to every sniffer. -/
def dispatchToSniffers (sendOk : Nat → Bool) (peerOf : Nat → String)
    (st : RegistryState) (event : GroupEvent) :
    RegistryState × List DispatchAction × Option String :=
  if st.sniffers = [] then (st, [], none)
  else (st, dispatchPhase sendOk peerOf st.sniffers (toV1SubscribeResponse event), none)

/-- `Server.dispatchEvent` of `knx.go`: subscribers phase, then sniffers
phase, propagating the first non-nil error. -/
def dispatchEvent (sendOk : Nat → Bool) (peerOf : Nat → String)
    (st : RegistryState) (event : GroupEvent) :
    RegistryState × List DispatchAction × Option String :=
  match dispatchToSubscribers sendOk peerOf st event with
  | (st1, acts1, some e) => (st1, acts1, some e)
  | (st1, acts1, none) =>
    match dispatchToSniffers sendOk peerOf st1 event with
    | (st2, acts2, r) => (st2, acts1 ++ acts2, r)

/-- The subscriber handle an action concerns. -/
def actionSub : DispatchAction → Subscriber
  | .sent s _ => s
  | .logFailure _ s => s

/-- Number of send attempts (successful or logged-failed) the trace makes
to a given subscriber handle. -/
def attemptsTo (sub : Subscriber) (acts : List DispatchAction) : Nat :=
  acts.countP (fun a => actionSub a = sub)

/-- Result of `Server.Publish` in `rpcs.go`, as the connect error class. -/
inductive PublishResult where
  | ok
  | errInvalidArgument
  | errInternalSend
  | errInternalDispatch
deriving DecidableEq, Repr

/-- `Server.Publish` of `rpcs.go`: convert the request (the address-string
parsing is delegated to the external codec, so the conversion outcome is
the parameter `parsed`); a failed `tunnel.Send` yields CodeInternal with no
dispatch; otherwise `dispatchEvent` runs once and a dispatch error would
also yield CodeInternal. -/
def Publish (parsed : Option GroupEvent) (tunnelSendOk : Bool)
    (sendOk : Nat → Bool) (peerOf : Nat → String) (st : RegistryState) :
    RegistryState × List DispatchAction × PublishResult :=
  match parsed with
  | none => (st, [], .errInvalidArgument)
  | some event =>
    if tunnelSendOk then
      match dispatchEvent sendOk peerOf st event with
      | (st', acts, some _) => (st', acts, .errInternalDispatch)
      | (st', acts, none) => (st', acts, .ok)
    else (st, [], .errInternalSend)

/-- `Server.busMessageReader` of `knx.go`, run over the finite list of
inbound events received before the context is cancelled: each event is
dispatched; a dispatch error would terminate the loop with that error;
exhausting the list models `ctx.Done()` firing, which returns nil. -/
def busMessageReader (sendOk : Nat → Bool) (peerOf : Nat → String)
    (st : RegistryState) (events : List GroupEvent) :
    RegistryState × List DispatchAction × Option String :=
  match events with
  | [] => (st, [], none)
  | e :: rest =>
    match dispatchEvent sendOk peerOf st e with
    | (st', acts, some err) => (st', acts, some err)
    | (st', acts, none) =>
      match busMessageReader sendOk peerOf st' rest with
      | (st'', acts', r) => (st'', acts ++ acts', r)

/-- Connect error classes returned by `Server.Subscribe`. -/
inductive ConnectCode where
  | invalidArgument
  | aborted
deriving DecidableEq, Repr

/-- Which branch of the `select` in `Server.Subscribe` fired: the call's
own context (`ctx.Done()`) or the server-wide shutdown context
(`s.ctx.Done()`). -/
inductive DoneSignal where
  | callCtx
  | serverCtx
deriving DecidableEq, Repr

/-- `Server.Subscribe` of `rpcs.go`. `parsed` is the outcome of
`parseGroupAddresses` (`none` models a parse error). Registration happens
before the `select`; note that the `s.ctx.Done()` branch returns the
CodeAborted error from inside the `select`, before the unregistration
block that follows it, so on that path no unregistration runs. -/
def Subscribe (parsed : Option (List GroupAddr)) (req : SubscribeRequest)
    (stream : Nat) (signal : DoneSignal) (st : RegistryState) :
    RegistryState × Option ConnectCode :=
  match parsed with
  | none => (st, some .invalidArgument)
  | some addresses =>
    let st1 :=
      if addresses.length > 0 then registerSubscriber addresses req stream st
      else registerSniffer req stream st
    match signal with
    | .serverCtx => (st1, some .aborted)
    | .callCtx =>
      let st2 :=
        if addresses.length > 0 then unregisterSubscriber addresses stream st1
        else unregisterSniffer stream st1
      (st2, none)

/-- A `*connect.Error` as far as `SubscribeUnary`'s post-loop check
inspects it: whether it wraps `context.Canceled` or
`context.DeadlineExceeded`. -/
structure ConnectError where
  wrapsCanceled : Bool
  wrapsDeadline : Bool
deriving DecidableEq, Repr

/-- The guard of `SubscribeUnary`'s post-loop check:
`errors.As(err, &connectErr) && !errors.Is(connectErr, context.Canceled)
&& !errors.Is(connectErr, context.DeadlineExceeded)`. On a nil error
`errors.As` yields false. -/
def errorsAsNonCancelConnect : Option ConnectError → Bool
  | none => false
  | some e => !e.wrapsCanceled && !e.wrapsDeadline

/-- Result of `Server.SubscribeUnary`. -/
inductive UnaryResult where
  | ok (msgs : List SubscribeResponse)
  | errInternalClient
  | errInvalidFor
  | errSubscribe (e : ConnectError)
  | errInternalStreamClosed
deriving DecidableEq, Repr

/-- The receiver loop of `SubscribeUnary`: `incoming` is the sequence of
messages `stream.Receive()` yields before it returns false (the stream
terminating). Every received message is appended; with no `for` duration
the loop breaks after the first message. -/
def subscribeUnaryLoop (hasFor : Bool) (incoming : List SubscribeResponse) :
    List SubscribeResponse :=
  match incoming with
  | [] => []
  | m :: rest => if hasFor then m :: subscribeUnaryLoop hasFor rest else [m]

/-- `Server.SubscribeUnary` of `rpcs.go`. Parameters: whether `NewClient`
succeeded, whether a `for` duration was supplied and whether it parsed,
the error of the internal `client.Subscribe` call, the messages received
before the internal stream terminated, and the stream's terminal error
(`stream.Err()`). After the loop the code inspects the variable `err`
still holding the (hence nil) result of `client.Subscribe` — not
`stream.Err()`, which is only read to format the message of that dead
branch — so `_streamErr` does not influence the result. -/
def SubscribeUnary (clientOk : Bool) (hasFor : Bool) (forParses : Bool)
    (subscribeErr : Option ConnectError) (incoming : List SubscribeResponse)
    (_streamErr : Option ConnectError) : UnaryResult :=
  if !clientOk then .errInternalClient
  else if hasFor && !forParses then .errInvalidFor
  else
    match subscribeErr with
    | some e => .errSubscribe e
    | none =>
      let err : Option ConnectError := none
      let msgs := subscribeUnaryLoop hasFor incoming
      if errorsAsNonCancelConnect err then .errInternalStreamClosed
      else .ok msgs

/-- A call registered by the `Subscribe` entry point: its parsed address
list, its request, and its stream identity. -/
structure SubCall where
  addresses : List GroupAddr
  req : SubscribeRequest
  stream : Nat
deriving DecidableEq, Repr

/-- The registration step `Subscribe` performs for one call: per-topic
registration for a non-empty address list, sniffer registration for an
empty one. -/
def subscribeRegister (c : SubCall) (st : RegistryState) : RegistryState :=
  if c.addresses.length > 0 then registerSubscriber c.addresses c.req c.stream st
  else registerSniffer c.req c.stream st

/-- A sequence of `Subscribe` registrations applied in order. -/
def applyRegistrations (calls : List SubCall) (st : RegistryState) : RegistryState :=
  calls.foldl (fun st c => subscribeRegister c st) st

/-- Number of occurrences of the handle with the given stream identity in
the per-topic slice for `t`. -/
def streamCount (st : RegistryState) (t : GroupAddr) (s : Nat) : Nat :=
  ((st.subscribers t).getD []).countP (fun x => x.stream = s)

/-- The handle with the given stream identity occurs in the sniffers
slice. -/
def snifferHas (st : RegistryState) (s : Nat) : Prop :=
  ∃ x ∈ st.sniffers, x.stream = s

instance (st : RegistryState) (s : Nat) : Decidable (snifferHas st s) := by
  unfold snifferHas; infer_instance

/-! ## Concrete fixtures used by witness and counterexample theorems -/

/-- A subscriber on stream 1 with the wildcard (Unspecified) kind filter. -/
def subW : Subscriber := ⟨⟨V1Event.unspecified⟩, 1⟩

/-- A sniffer on stream 2 filtered to Response events. -/
def snifW : Subscriber := ⟨⟨V1Event.response⟩, 2⟩

/-- A registry holding `subW` under topic 5 and `snifW` as a sniffer. -/
def stW : RegistryState := ⟨fun t => if t = 5 then some [subW] else none, [snifW]⟩

/-- A GroupWrite bus event for topic 5. -/
def eW : GroupEvent := ⟨GroupWrite, 9, 5, [1]⟩

/-- A bus event for topic 5 whose command value (3) is none of
GroupRead / GroupResponse / GroupWrite. -/
def eOther : GroupEvent := ⟨3, 9, 5, [1]⟩

/-- Send oracle under which every sink send succeeds. -/
def allOk : Nat → Bool := fun _ => true

/-- Send oracle under which every sink send fails. -/
def allFail : Nat → Bool := fun _ => false

/-- Peer-label oracle. -/
def peerW : Nat → String := fun _ => "peer"

/-- A sample wire message. -/
def msgA : SubscribeResponse := ⟨1, 2, V1Event.write, [3]⟩

/-- A second sample wire message. -/
def msgB : SubscribeResponse := ⟨4, 5, V1Event.read, [6]⟩

/-! ## Helper lemmas about the registry operations -/

theorem countP_replicate (p : α → Bool) (n : Nat) (x : α) :
    (List.replicate n x).countP p = if p x then n else 0 := by
  induction n with
  | zero => simp
  | succ n ih =>
    simp only [List.replicate_succ, List.countP_cons, ih]
    split_ifs <;> omega

theorem registerStep_self (sub : Subscriber) (m : SubMap) (a : GroupAddr) :
    registerSubscriberStep sub m a a = some ((m a).getD [] ++ [sub]) := by
  simp [registerSubscriberStep, mapSet]

theorem registerStep_other (sub : Subscriber) (m : SubMap) (a u : GroupAddr)
    (hu : u ≠ a) : registerSubscriberStep sub m a u = m u := by
  simp [registerSubscriberStep, mapSet, hu]

theorem foldl_registerStep_eq (sub : Subscriber) (T : List GroupAddr) :
    ∀ (m : SubMap) (t : GroupAddr),
    T.foldl (registerSubscriberStep sub) m t =
      if T.count t = 0 then m t
      else some ((m t).getD [] ++ List.replicate (T.count t) sub) := by
  induction T with
  | nil => intro m t; simp
  | cons a T ih =>
    intro m t
    rw [List.foldl_cons, ih]
    by_cases hat : t = a
    · subst hat
      have hcnt : (t :: T).count t = T.count t + 1 := by
        simp [List.count_cons]
      rw [registerStep_self, hcnt]
      by_cases h0 : T.count t = 0
      · simp [h0]
      · have h1 : T.count t + 1 ≠ 0 := by omega
        rw [if_neg h0, if_neg h1, Option.getD_some]
        rw [List.append_assoc]
        congr 2
    · have hcnt : (a :: T).count t = T.count t := by
        simp [List.count_cons, hat]
      rw [registerStep_other sub m a t hat, hcnt]

theorem registerSubscriber_subscribers (T : List GroupAddr) (req : SubscribeRequest)
    (stream : Nat) (st : RegistryState) (t : GroupAddr) :
    (registerSubscriber T req stream st).subscribers t =
      if T.count t = 0 then st.subscribers t
      else some ((st.subscribers t).getD [] ++
        List.replicate (T.count t) ⟨req, stream⟩) := by
  unfold registerSubscriber
  exact foldl_registerStep_eq ⟨req, stream⟩ T st.subscribers t

theorem registerSubscriber_sniffers (T : List GroupAddr) (req : SubscribeRequest)
    (stream : Nat) (st : RegistryState) :
    (registerSubscriber T req stream st).sniffers = st.sniffers := rfl

theorem registerSniffer_subscribers (req : SubscribeRequest) (stream : Nat)
    (st : RegistryState) :
    (registerSniffer req stream st).subscribers = st.subscribers := rfl

theorem unregisterSubscriber_sniffers (T : List GroupAddr) (stream : Nat)
    (st : RegistryState) :
    (unregisterSubscriber T stream st).sniffers = st.sniffers := rfl

theorem unregisterStep_other (stream : Nat) (m : SubMap) (a u : GroupAddr)
    (hu : u ≠ a) : unregisterSubscriberStep stream m a u = m u := by
  unfold unregisterSubscriberStep
  cases hm : m a with
  | none => rfl
  | some subs =>
    dsimp only
    split_ifs <;> simp [mapSet, mapDelete, hu]

theorem unregisterStep_at_concat (m : SubMap) (a : GroupAddr) (sub : Subscriber)
    (base : List Subscriber) (hma : m a = some (base ++ [sub])) :
    unregisterSubscriberStep sub.stream m a =
      if base = [] then mapDelete m a else mapSet m a base := by
  unfold unregisterSubscriberStep
  split
  · next hnone => rw [hma] at hnone; cases hnone
  · next subs hsome =>
    rw [hma] at hsome
    injection hsome with hsubs
    subst hsubs
    have hcond : base ++ [sub] ≠ [] ∧ ((base ++ [sub]).getLastD dummySub).stream = sub.stream := by
      constructor
      · simp
      · rw [List.getLastD_concat]
    rw [if_pos hcond]
    dsimp only
    rw [List.dropLast_concat]
    by_cases hb : base = []
    · rw [if_neg (by simp [hb]), if_pos hb]
    · rw [if_pos hb, if_neg hb]

theorem foldl_unregisterStep_restore (sub : Subscriber) (T : List GroupAddr) :
    ∀ (M m : SubMap),
    (∀ t, M t ≠ some []) →
    (∀ t, m t = if T.count t = 0 then M t
                else some ((M t).getD [] ++ List.replicate (T.count t) sub)) →
    ∀ t, T.foldl (unregisterSubscriberStep sub.stream) m t = M t := by
  induction T with
  | nil =>
    intro M m _ hinv t
    simpa using hinv t
  | cons a T ih =>
    intro M m hne hinv t
    rw [List.foldl_cons]
    apply ih M _ hne _ t
    intro u
    have hca : (a :: T).count a = T.count a + 1 := by simp [List.count_cons]
    have hma : m a = some (((M a).getD [] ++ List.replicate (T.count a) sub) ++ [sub]) := by
      have h := hinv a
      rw [hca, if_neg (Nat.succ_ne_zero _)] at h
      rw [h, List.replicate_succ', ← List.append_assoc]
    have hstep := unregisterStep_at_concat m a sub
      ((M a).getD [] ++ List.replicate (T.count a) sub) hma
    by_cases hua : u = a
    · subst hua
      rw [hstep]
      by_cases hbase0 : ((M u).getD [] ++ List.replicate (T.count u) sub) = []
      · -- the deleted case: the original slice was absent and T held u once
        rcases List.append_eq_nil.mp hbase0 with ⟨hb, hr⟩
        have h0 : T.count u = 0 := by simpa using congrArg List.length hr
        have hMu : M u = none := by
          cases hM : M u with
          | none => rfl
          | some l =>
            rw [hM] at hb
            simp only [Option.getD_some] at hb
            exact absurd (hb ▸ hM) (hne u)
        rw [if_pos hbase0]
        simp [mapDelete, hMu, h0]
      · rw [if_neg hbase0]
        have hmap : mapSet m u ((M u).getD [] ++ List.replicate (T.count u) sub) u
            = some ((M u).getD [] ++ List.replicate (T.count u) sub) := by
          simp [mapSet]
        rw [hmap]
        by_cases h0 : T.count u = 0
        · rw [h0] at hbase0 ⊢
          simp only [List.replicate_zero, List.append_nil] at hbase0 ⊢
          simp only [if_true]
          cases hM : M u with
          | none => rw [hM] at hbase0; simp at hbase0
          | some l => simp
        · rw [if_neg h0]
    · have hcu : (a :: T).count u = T.count u := by simp [List.count_cons, hua]
      rw [unregisterStep_other sub.stream m a u hua, hinv u, hcu]

theorem unregister_register_subscribers (T : List GroupAddr) (req : SubscribeRequest)
    (stream : Nat) (st : RegistryState)
    (hne : ∀ t, st.subscribers t ≠ some []) :
    ∀ t, (unregisterSubscriber T stream
        (registerSubscriber T req stream st)).subscribers t = st.subscribers t := by
  intro t
  unfold unregisterSubscriber
  exact foldl_unregisterStep_restore ⟨req, stream⟩ T st.subscribers
    (registerSubscriber T req stream st).subscribers hne
    (fun u => registerSubscriber_subscribers T req stream st u) t

/-! ## Helper lemmas about registration sequences -/

theorem streamCount_registerSubscriber (T : List GroupAddr) (req : SubscribeRequest)
    (sr : Nat) (st : RegistryState) (t : GroupAddr) (s : Nat) :
    streamCount (registerSubscriber T req sr st) t s =
      streamCount st t s + (if sr = s then T.count t else 0) := by
  unfold streamCount
  rw [registerSubscriber_subscribers]
  by_cases h0 : T.count t = 0
  · rw [if_pos h0, h0]
    simp
  · rw [if_neg h0, Option.getD_some, List.countP_append, countP_replicate]
    congr 1
    by_cases hs : sr = s <;> simp [hs]

theorem streamCount_registerSniffer (req : SubscribeRequest) (sr : Nat)
    (st : RegistryState) (t : GroupAddr) (s : Nat) :
    streamCount (registerSniffer req sr st) t s = streamCount st t s := rfl

theorem snifferHas_registerSubscriber (T : List GroupAddr) (req : SubscribeRequest)
    (sr : Nat) (st : RegistryState) (s : Nat) :
    snifferHas (registerSubscriber T req sr st) s ↔ snifferHas st s := Iff.rfl

theorem snifferHas_registerSniffer (req : SubscribeRequest) (sr : Nat)
    (st : RegistryState) (s : Nat) :
    snifferHas (registerSniffer req sr st) s ↔ (snifferHas st s ∨ sr = s) := by
  simp only [snifferHas, registerSniffer, List.mem_append, List.mem_singleton]
  constructor
  · rintro ⟨x, hx | rfl, hs⟩
    · exact .inl ⟨x, hx, hs⟩
    · exact .inr hs
  · rintro (⟨x, hx, hs⟩ | hs)
    · exact ⟨x, .inl hx, hs⟩
    · exact ⟨_, .inr rfl, hs⟩

theorem streamCount_subscribeRegister_other (c : SubCall) (st : RegistryState)
    (t : GroupAddr) (s : Nat) (hs : c.stream ≠ s) :
    streamCount (subscribeRegister c st) t s = streamCount st t s := by
  unfold subscribeRegister
  split_ifs with h
  · rw [streamCount_registerSubscriber]
    simp [hs]
  · rfl

theorem snifferHas_subscribeRegister_other (c : SubCall) (st : RegistryState)
    (s : Nat) (hs : c.stream ≠ s) :
    snifferHas (subscribeRegister c st) s ↔ snifferHas st s := by
  unfold subscribeRegister
  split_ifs with h
  · exact Iff.rfl
  · rw [snifferHas_registerSniffer]
    simp [hs]

theorem applyRegistrations_cons (c : SubCall) (calls : List SubCall) (st : RegistryState) :
    applyRegistrations (c :: calls) st = applyRegistrations calls (subscribeRegister c st) := rfl

theorem applyRegistrations_preserve (calls : List SubCall) :
    ∀ (st : RegistryState) (s : Nat), (∀ c ∈ calls, c.stream ≠ s) →
    (∀ t, streamCount (applyRegistrations calls st) t s = streamCount st t s) ∧
    (snifferHas (applyRegistrations calls st) s ↔ snifferHas st s) := by
  induction calls with
  | nil => exact fun st s _ => ⟨fun t => rfl, Iff.rfl⟩
  | cons c calls ih =>
    intro st s hs
    have hc : c.stream ≠ s := hs c (List.mem_cons_self c calls)
    have hrest : ∀ c' ∈ calls, c'.stream ≠ s := fun c' h => hs c' (List.mem_cons_of_mem c h)
    have h := ih (subscribeRegister c st) s hrest
    rw [applyRegistrations_cons]
    exact ⟨fun t => by rw [h.1 t, streamCount_subscribeRegister_other c st t s hc],
      by rw [h.2, snifferHas_subscribeRegister_other c st s hc]⟩

theorem applyRegistrations_invariant (calls : List SubCall) :
    ∀ (st : RegistryState),
    calls.Pairwise (fun a b => a.stream ≠ b.stream) →
    (∀ c ∈ calls, (∀ t, streamCount st t c.stream = 0) ∧ ¬ snifferHas st c.stream) →
    ∀ c ∈ calls,
      (∀ t, streamCount (applyRegistrations calls st) t c.stream = c.addresses.count t) ∧
      (snifferHas (applyRegistrations calls st) c.stream ↔ c.addresses = []) := by
  induction calls with
  | nil => intro st _ _ c hc; cases hc
  | cons c0 calls ih =>
    intro st hpw hinit c hc
    rw [applyRegistrations_cons]
    rcases List.pairwise_cons.mp hpw with ⟨hc0, hpw'⟩
    rcases List.mem_cons.mp hc with rfl | hcmem
    · -- the head call: its registration sets the counts, the tail preserves them
      have h0 := hinit c (List.mem_cons_self _ _)
      have hafter1 : ∀ t, streamCount (subscribeRegister c st) t c.stream = c.addresses.count t := by
        intro t
        unfold subscribeRegister
        split_ifs with h
        · rw [streamCount_registerSubscriber, h0.1 t]
          simp
        · have haddr : c.addresses = [] := by
            cases hl : c.addresses with
            | nil => rfl
            | cons x xs => rw [hl] at h; simp at h
          rw [streamCount_registerSniffer, h0.1 t, haddr]
          simp
      have hafter2 : snifferHas (subscribeRegister c st) c.stream ↔ c.addresses = [] := by
        unfold subscribeRegister
        split_ifs with h
        · have haddr : c.addresses ≠ [] := by
            cases hl : c.addresses with
            | nil => rw [hl] at h; simp at h
            | cons x xs => simp
          constructor
          · intro hsn; exact absurd hsn h0.2
          · intro he; exact absurd he haddr
        · have haddr : c.addresses = [] := by
            cases hl : c.addresses with
            | nil => rfl
            | cons x xs => rw [hl] at h; simp at h
          rw [snifferHas_registerSniffer]
          simp [haddr]
      have hpres := applyRegistrations_preserve calls (subscribeRegister c st) c.stream
        (fun c' h => (hc0 c' h).symm)
      exact ⟨fun t => by rw [hpres.1 t, hafter1 t], by rw [hpres.2, hafter2]⟩
    · -- a tail call: the head registration does not mention its stream
      apply ih (subscribeRegister c0 st) hpw' _ c hcmem
      intro c' hc'
      have hne : c0.stream ≠ c'.stream := hc0 c' hc'
      have h' := hinit c' (List.mem_cons_of_mem _ hc')
      exact ⟨fun t => by
          rw [streamCount_subscribeRegister_other c0 st t c'.stream hne, h'.1 t],
        by rw [snifferHas_subscribeRegister_other c0 st c'.stream hne]; exact h'.2⟩

/-! ## Helper lemmas about dispatch -/

theorem pass_of_not_fail {f r : V1Event} (h : ¬(f ≠ V1Event.unspecified ∧ f ≠ r)) :
    f = V1Event.unspecified ∨ f = r := by
  rcases not_and_or.mp h with h | h
  · exact .inl (not_not.mp h)
  · exact .inr (not_not.mp h)

theorem not_fail_of_pass {f r : V1Event} (h : f = V1Event.unspecified ∨ f = r) :
    ¬(f ≠ V1Event.unspecified ∧ f ≠ r) := by
  rintro ⟨h1, h2⟩
  rcases h with h | h
  · exact h1 h
  · exact h2 h

theorem dispatchPhase_nil (sendOk : Nat → Bool) (peerOf : Nat → String)
    (resp : SubscribeResponse) : dispatchPhase sendOk peerOf [] resp = [] := rfl

theorem mem_dispatchPhase {sendOk : Nat → Bool} {peerOf : Nat → String}
    {subs : List Subscriber} {resp : SubscribeResponse} {a : DispatchAction} :
    a ∈ dispatchPhase sendOk peerOf subs resp ↔
      ∃ sub, sub ∈ subs ∧ dispatchSendOne sendOk peerOf resp sub = some a :=
  List.mem_filterMap

theorem dispatchSendOne_sent_inv {sendOk : Nat → Bool} {peerOf : Nat → String}
    {resp : SubscribeResponse} {sub sub' : Subscriber} {r : SubscribeResponse}
    (h : dispatchSendOne sendOk peerOf resp sub = some (.sent sub' r)) :
    sub' = sub ∧ r = resp ∧
      (sub.req.event = V1Event.unspecified ∨ sub.req.event = resp.event) ∧
      sendOk sub.stream = true := by
  unfold dispatchSendOne at h
  split_ifs at h with h1 h2
  · simp only [Option.some.injEq, DispatchAction.sent.injEq] at h
    exact ⟨h.1.symm, h.2.symm, pass_of_not_fail h1, h2⟩
  · simp at h

theorem dispatchSendOne_log_inv {sendOk : Nat → Bool} {peerOf : Nat → String}
    {resp : SubscribeResponse} {sub s : Subscriber} {p : String}
    (h : dispatchSendOne sendOk peerOf resp sub = some (.logFailure p s)) :
    s = sub ∧ p = peerOf sub.stream ∧
      (sub.req.event = V1Event.unspecified ∨ sub.req.event = resp.event) ∧
      sendOk sub.stream = false := by
  unfold dispatchSendOne at h
  split_ifs at h with h1 h2
  · simp at h
  · simp only [Option.some.injEq, DispatchAction.logFailure.injEq] at h
    exact ⟨h.2.symm, h.1.symm, pass_of_not_fail h1, by simpa using h2⟩

theorem dispatchSendOne_pass_ok {sendOk : Nat → Bool} {peerOf : Nat → String}
    {resp : SubscribeResponse} {sub : Subscriber}
    (hpass : sub.req.event = V1Event.unspecified ∨ sub.req.event = resp.event)
    (hok : sendOk sub.stream = true) :
    dispatchSendOne sendOk peerOf resp sub = some (.sent sub resp) := by
  unfold dispatchSendOne
  rw [if_neg (not_fail_of_pass hpass), if_pos hok]

theorem dispatchSendOne_pass_fail {sendOk : Nat → Bool} {peerOf : Nat → String}
    {resp : SubscribeResponse} {sub : Subscriber}
    (hpass : sub.req.event = V1Event.unspecified ∨ sub.req.event = resp.event)
    (hfail : sendOk sub.stream = false) :
    dispatchSendOne sendOk peerOf resp sub = some (.logFailure (peerOf sub.stream) sub) := by
  unfold dispatchSendOne
  rw [if_neg (not_fail_of_pass hpass), if_neg (by simp [hfail])]

theorem dispatchToSubscribers_eq (sendOk : Nat → Bool) (peerOf : Nat → String)
    (st : RegistryState) (e : GroupEvent) :
    dispatchToSubscribers sendOk peerOf st e =
      (st, dispatchPhase sendOk peerOf ((st.subscribers e.destination).getD [])
        (toV1SubscribeResponse e), none) := by
  unfold dispatchToSubscribers
  cases hm : st.subscribers e.destination with
  | none => rfl
  | some subs => rfl

theorem dispatchToSniffers_eq (sendOk : Nat → Bool) (peerOf : Nat → String)
    (st : RegistryState) (e : GroupEvent) :
    dispatchToSniffers sendOk peerOf st e =
      (st, dispatchPhase sendOk peerOf st.sniffers (toV1SubscribeResponse e), none) := by
  unfold dispatchToSniffers
  split_ifs with h
  · rw [h, dispatchPhase_nil]
  · rfl

theorem dispatchEvent_eq (sendOk : Nat → Bool) (peerOf : Nat → String)
    (st : RegistryState) (e : GroupEvent) :
    dispatchEvent sendOk peerOf st e =
      (st, dispatchPhase sendOk peerOf ((st.subscribers e.destination).getD [])
          (toV1SubscribeResponse e)
        ++ dispatchPhase sendOk peerOf st.sniffers (toV1SubscribeResponse e), none) := by
  unfold dispatchEvent
  rw [dispatchToSubscribers_eq]
  dsimp only
  rw [dispatchToSniffers_eq]

theorem busMessageReader_err_none (sendOk : Nat → Bool) (peerOf : Nat → String) :
    ∀ (events : List GroupEvent) (st : RegistryState),
    (busMessageReader sendOk peerOf st events).2.2 = none := by
  intro events
  induction events with
  | nil => intro st; rfl
  | cons e rest ih =>
    intro st
    have h2 := ih st
    rcases hbr : busMessageReader sendOk peerOf st rest with ⟨st2, acts2, r2⟩
    rw [hbr] at h2
    simp only at h2
    simp only [busMessageReader, dispatchEvent_eq, hbr]
    exact h2

theorem Publish_sendFail (e : GroupEvent) (sendOk : Nat → Bool) (peerOf : Nat → String)
    (st : RegistryState) :
    Publish (some e) false sendOk peerOf st = (st, [], .errInternalSend) := rfl

theorem Publish_sendOk (e : GroupEvent) (sendOk : Nat → Bool) (peerOf : Nat → String)
    (st : RegistryState) :
    Publish (some e) true sendOk peerOf st =
      (st, (dispatchEvent sendOk peerOf st e).2.1, .ok) := by
  unfold Publish
  dsimp only
  rw [dispatchEvent_eq]
  rfl

theorem attemptsTo_phase (sendOk : Nat → Bool) (peerOf : Nat → String)
    (resp : SubscribeResponse) (sub : Subscriber) :
    ∀ subs : List Subscriber,
    attemptsTo sub (dispatchPhase sendOk peerOf subs resp) =
      if sub.req.event = V1Event.unspecified ∨ sub.req.event = resp.event
      then subs.count sub else 0 := by
  intro subs
  induction subs with
  | nil =>
    simp only [dispatchPhase, List.filterMap_nil, attemptsTo, List.countP_nil, List.count_nil]
    split_ifs <;> rfl
  | cons x rest ih =>
    by_cases hfail : x.req.event ≠ V1Event.unspecified ∧ x.req.event ≠ resp.event
    · -- x is skipped by the kind filter
      have hfx : dispatchSendOne sendOk peerOf resp x = none := by
        unfold dispatchSendOne
        rw [if_pos hfail]
      unfold dispatchPhase attemptsTo at ih ⊢
      rw [List.filterMap_cons, hfx, ih]
      by_cases hq : sub.req.event = V1Event.unspecified ∨ sub.req.event = resp.event
      · rw [if_pos hq, if_pos hq]
        have hxs : ¬ (x = sub) := by
          intro hh
          subst hh
          exact not_fail_of_pass hq hfail
        have hsx : ¬ (sub = x) := fun hh => hxs hh.symm
        rw [List.count_cons]
        simp [hxs, hsx]
      · rw [if_neg hq, if_neg hq]
    · -- x passes the filter and produces exactly one action about x
      have hfx : ∃ act, dispatchSendOne sendOk peerOf resp x = some act ∧ actionSub act = x := by
        unfold dispatchSendOne
        rw [if_neg hfail]
        by_cases hok : sendOk x.stream
        · rw [if_pos hok]
          exact ⟨_, rfl, rfl⟩
        · rw [if_neg hok]
          exact ⟨_, rfl, rfl⟩
      rcases hfx with ⟨act, hfx, hsubact⟩
      unfold dispatchPhase attemptsTo at ih ⊢
      rw [List.filterMap_cons, hfx, List.countP_cons, ih]
      by_cases hxs : x = sub
      · subst hxs
        have hq := pass_of_not_fail hfail
        rw [if_pos hq, if_pos hq, List.count_cons_self]
        simp [hsubact]
      · have hsx : ¬ (sub = x) := fun hh => hxs hh.symm
        have hcnt : (x :: rest).count sub = rest.count sub := by
          rw [List.count_cons]
          simp [hxs, hsx]
        rw [hcnt]
        have hact : (decide (actionSub act = sub)) = false := by
          simp [hsubact, hxs]
        rw [hact]
        simp

theorem subscribeUnaryLoop_noFor (incoming : List SubscribeResponse) :
    subscribeUnaryLoop false incoming = incoming.take 1 := by
  cases incoming with
  | nil => rfl
  | cons m rest => rfl

theorem unregister_register_sniffer (req : SubscribeRequest) (stream : Nat)
    (st : RegistryState) :
    (unregisterSniffer stream (registerSniffer req stream st)).sniffers = st.sniffers := by
  unfold registerSniffer unregisterSniffer
  dsimp only
  have hcond : (st.sniffers ++ [(⟨req, stream⟩ : Subscriber)]) ≠ [] ∧
      ((st.sniffers ++ [(⟨req, stream⟩ : Subscriber)]).getLastD dummySub).stream = stream := by
    constructor
    · simp
    · rw [List.getLastD_concat]
  rw [if_pos hcond]
  dsimp only
  rw [List.dropLast_concat]

/-! ## Claim theorems -/

/-- C1 counterexample: the claim states that every `Subscribe` call
unregisters before returning on every exit path, including the
process-shutdown path that returns the Aborted error. The code violates
this: the `s.ctx.Done()` branch returns from inside the `select`, before
the unregistration block. At the concrete failing input (a call registered
for topic 5 on stream 7, terminated by the server-wide shutdown signal)
the call returns Aborted with the handle still registered, while the
caller-cancellation path does remove it. -/
theorem subscribe_shutdown_skips_unregistration :
    (Subscribe (some [5]) ⟨V1Event.unspecified⟩ 7 DoneSignal.serverCtx emptyRegistry).2
        = some ConnectCode.aborted ∧
    (Subscribe (some [5]) ⟨V1Event.unspecified⟩ 7 DoneSignal.serverCtx emptyRegistry).1.subscribers 5
        = some [⟨⟨V1Event.unspecified⟩, 7⟩] ∧
    (Subscribe (some [5]) ⟨V1Event.unspecified⟩ 7 DoneSignal.callCtx emptyRegistry).1.subscribers 5
        = none :=
  ⟨rfl, rfl, rfl⟩

/-- C1 (amended): on the caller-cancellation path `Subscribe` performs
the exact inverse of its registration before returning (the registry's
subscriber map, resp. sniffer slice, is restored exactly) and returns
without error; on the process-shutdown path it returns the Aborted-class
error from inside the `select`, without unregistering — the registry is
left in its registered state. -/
theorem subscribe_cleanup_on_caller_cancel (addresses : List GroupAddr)
    (req : SubscribeRequest) (stream : Nat) (st : RegistryState)
    (hne : ∀ t, st.subscribers t ≠ some []) :
    (addresses ≠ [] →
      (∀ t, (Subscribe (some addresses) req stream DoneSignal.callCtx st).1.subscribers t
          = st.subscribers t) ∧
      (Subscribe (some addresses) req stream DoneSignal.serverCtx st).1
          = registerSubscriber addresses req stream st) ∧
    ((Subscribe (some []) req stream DoneSignal.callCtx st).1.sniffers = st.sniffers) ∧
    ((Subscribe (some []) req stream DoneSignal.serverCtx st).1
        = registerSniffer req stream st) ∧
    (Subscribe (some addresses) req stream DoneSignal.callCtx st).2 = none ∧
    (Subscribe (some addresses) req stream DoneSignal.serverCtx st).2
        = some ConnectCode.aborted := by
  refine ⟨fun haddr => ⟨?_, ?_⟩, ?_, rfl, ?_, rfl⟩
  · intro t
    have hlen : addresses.length > 0 := List.length_pos.mpr haddr
    unfold Subscribe
    dsimp only
    rw [if_pos hlen, if_pos hlen]
    exact unregister_register_subscribers addresses req stream st hne t
  · have hlen : addresses.length > 0 := List.length_pos.mpr haddr
    unfold Subscribe
    dsimp only
    rw [if_pos hlen]
  · unfold Subscribe
    dsimp only
    exact unregister_register_sniffer req stream st
  · rfl

/-- C1 amended-claim witness: concrete caller-cancel round trip on the
empty registry restores the map at topic 5. -/
theorem subscribe_cleanup_on_caller_cancel_witness :
    (Subscribe (some [5]) ⟨V1Event.unspecified⟩ 7 DoneSignal.callCtx emptyRegistry).1.subscribers 5
      = emptyRegistry.subscribers 5 :=
  ((subscribe_cleanup_on_caller_cancel [5] ⟨V1Event.unspecified⟩ 7 emptyRegistry
    (fun t => by simp [emptyRegistry])).1 (by simp)).1 5

/-- C2: the claim states that a `SubscribeUnary` stream terminating for a
cause other than cancellation or deadline expiry yields an Internal-class
error. The code violates this: the post-loop guard inspects the variable
`err` still holding the (necessarily nil) result of `client.Subscribe`
instead of `stream.Err()`, so the Internal branch is unreachable and the
call returns a successful response whatever the termination cause — here
a stream error wrapping neither context.Canceled nor DeadlineExceeded. -/
theorem subscribeUnary_nonCancel_termination_still_ok :
    SubscribeUnary true false true none [] (some ⟨false, false⟩) = UnaryResult.ok [] ∧
    SubscribeUnary true true true none [msgA] (some ⟨false, false⟩) = UnaryResult.ok [msgA] :=
  ⟨rfl, rfl⟩

/-- C6: a `SubscribeUnary` call without a duration that returns
successfully carries exactly the first received message, or nothing if the
stream ended (e.g. by cancellation) before any message arrived — never
more than one message. -/
theorem subscribeUnary_noFor_atMostOne (clientOk forParses : Bool)
    (subscribeErr streamErr : Option ConnectError)
    (incoming msgs : List SubscribeResponse)
    (h : SubscribeUnary clientOk false forParses subscribeErr incoming streamErr
        = UnaryResult.ok msgs) :
    msgs = incoming.take 1 ∧ msgs.length ≤ 1 := by
  cases clientOk with
  | false =>
    unfold SubscribeUnary at h
    simp at h
  | true =>
    cases subscribeErr with
    | some e =>
      unfold SubscribeUnary at h
      simp at h
    | none =>
      have heval : SubscribeUnary true false forParses none incoming streamErr
          = UnaryResult.ok (subscribeUnaryLoop false incoming) := rfl
      rw [heval] at h
      injection h with h1
      subst h1
      rw [subscribeUnaryLoop_noFor]
      refine ⟨rfl, ?_⟩
      rw [List.length_take]
      exact Nat.min_le_left _ _

/-- C6 witness: with two pending messages and no duration, the call
returns only the first. -/
theorem subscribeUnary_noFor_atMostOne_witness :
    ([msgA] : List SubscribeResponse) = ([msgA, msgB] : List SubscribeResponse).take 1 ∧
    ([msgA] : List SubscribeResponse).length ≤ 1 :=
  subscribeUnary_noFor_atMostOne true true none none [msgA, msgB] [msgA] rfl

/-- C3: after any sequence of `Subscribe` registrations (with pairwise
distinct stream identities, as distinct calls have distinct stream
pointers), every registered handle occurs in `byTopic[t]` exactly once for
each occurrence of `t` in its requested topic list — duplicates included —
and occurs among the sniffers iff its request listed zero topics. -/
theorem subscribe_registration_invariant (calls : List SubCall)
    (hpw : calls.Pairwise (fun a b => a.stream ≠ b.stream))
    (c : SubCall) (hc : c ∈ calls) (t : GroupAddr) :
    streamCount (applyRegistrations calls emptyRegistry) t c.stream = c.addresses.count t ∧
    (snifferHas (applyRegistrations calls emptyRegistry) c.stream ↔ c.addresses = []) := by
  have h := applyRegistrations_invariant calls emptyRegistry hpw
    (fun c' _ => ⟨fun u => rfl, by simp [snifferHas, emptyRegistry]⟩) c hc
  exact ⟨h.1 t, h.2⟩

/-- C3 witness: a call listing topic 1 twice (and topic 2 once) on
stream 10 appears twice in `byTopic[1]` and not among the sniffers, while
a zero-topic call on stream 11 becomes a sniffer. -/
theorem subscribe_registration_invariant_witness :
    streamCount (applyRegistrations
        [⟨[1, 1, 2], ⟨V1Event.read⟩, 10⟩, ⟨[], ⟨V1Event.write⟩, 11⟩] emptyRegistry) 1 10
      = ([1, 1, 2] : List GroupAddr).count 1 ∧
    (snifferHas (applyRegistrations
        [⟨[1, 1, 2], ⟨V1Event.read⟩, 10⟩, ⟨[], ⟨V1Event.write⟩, 11⟩] emptyRegistry) 10
      ↔ ([1, 1, 2] : List GroupAddr) = []) :=
  subscribe_registration_invariant
    [⟨[1, 1, 2], ⟨V1Event.read⟩, 10⟩, ⟨[], ⟨V1Event.write⟩, 11⟩]
    (by decide) ⟨[1, 1, 2], ⟨V1Event.read⟩, 10⟩ (by decide) 1

/-- C4: registering a handle for topic list T and then unregistering it
again — starting from any registry state that satisfies the registry
invariant (no empty per-topic entries) and does not contain the handle, so
that after the registration the handle is registered for exactly T —
leaves the topic map with no empty per-topic collection and no occurrence
of the handle. -/
theorem register_unregister_clean (T : List GroupAddr) (req : SubscribeRequest)
    (stream : Nat) (st : RegistryState)
    (hne : ∀ t, st.subscribers t ≠ some [])
    (hfree : ∀ t x, x ∈ ((st.subscribers t).getD []) → x.stream ≠ stream) :
    (∀ t, (unregisterSubscriber T stream
        (registerSubscriber T req stream st)).subscribers t ≠ some []) ∧
    (∀ t x, x ∈ (((unregisterSubscriber T stream
        (registerSubscriber T req stream st)).subscribers t).getD []) →
      x.stream ≠ stream) := by
  have hrestore := unregister_register_subscribers T req stream st hne
  constructor
  · intro t
    rw [hrestore t]
    exact hne t
  · intro t x hx
    rw [hrestore t] at hx
    exact hfree t x hx

/-- C4 witness: registering stream 7 for [3, 4] on the empty registry and
unregistering it leaves no empty entry under topic 3. -/
theorem register_unregister_clean_witness :
    (unregisterSubscriber [3, 4] 7
        (registerSubscriber [3, 4] ⟨V1Event.read⟩ 7 emptyRegistry)).subscribers 3 ≠ some [] :=
  (register_unregister_clean [3, 4] ⟨V1Event.read⟩ 7 emptyRegistry
    (fun t => by simp [emptyRegistry])
    (fun t x hx => by simp [emptyRegistry] at hx)).1 3

/-- C5: the dispatcher's kind filter. A handle whose requested kind is
Read is never sent an event of kind Write or Response; a handle with the
Unspecified wildcard filter that is registered under the event's topic is
sent the event whatever its kind (if its sink accepts the send); a sniffer
is sent events for every destination topic, subject only to its kind
filter. -/
theorem dispatch_kind_filter (sendOk : Nat → Bool) (peerOf : Nat → String)
    (st : RegistryState) (e : GroupEvent) :
    (∀ sub r, DispatchAction.sent sub r ∈ (dispatchEvent sendOk peerOf st e).2.1 →
        sub.req.event = V1Event.read →
        r.event ≠ V1Event.write ∧ r.event ≠ V1Event.response) ∧
    (∀ sub, sub ∈ (st.subscribers e.destination).getD [] →
        sub.req.event = V1Event.unspecified → sendOk sub.stream = true →
        DispatchAction.sent sub (toV1SubscribeResponse e)
          ∈ (dispatchEvent sendOk peerOf st e).2.1) ∧
    (∀ sub, sub ∈ st.sniffers →
        (sub.req.event = V1Event.unspecified ∨ sub.req.event = (toV1SubscribeResponse e).event) →
        sendOk sub.stream = true →
        DispatchAction.sent sub (toV1SubscribeResponse e)
          ∈ (dispatchEvent sendOk peerOf st e).2.1) := by
  rw [dispatchEvent_eq]
  dsimp only
  refine ⟨?_, ?_, ?_⟩
  · intro sub r hmem hread
    rw [List.mem_append] at hmem
    rcases hmem with hmem | hmem <;>
    · rcases mem_dispatchPhase.mp hmem with ⟨sub', -, heq⟩
      rcases dispatchSendOne_sent_inv heq with ⟨rfl, rfl, hpass, -⟩
      rcases hpass with h | h
      · rw [hread] at h
        cases h
      · rw [← h, hread]
        exact ⟨by decide, by decide⟩
  · intro sub hmem hunspec hok
    exact List.mem_append_left _
      (mem_dispatchPhase.mpr ⟨sub, hmem, dispatchSendOne_pass_ok (Or.inl hunspec) hok⟩)
  · intro sub hmem hpass hok
    exact List.mem_append_right _
      (mem_dispatchPhase.mpr ⟨sub, hmem, dispatchSendOne_pass_ok hpass hok⟩)

/-- C5 witness: the wildcard subscriber registered under topic 5 is sent
the Write event for topic 5. -/
theorem dispatch_kind_filter_witness :
    DispatchAction.sent subW (toV1SubscribeResponse eW)
      ∈ (dispatchEvent allOk peerW stW eW).2.1 :=
  (dispatch_kind_filter allOk peerW stW eW).2.1 subW (by simp [stW, eW, subW]) rfl rfl

/-- C7: a failed bus send makes `Publish` return the Internal error with
no local dispatch at all (no subscriber or sniffer receives an action); a
successful bus send makes `Publish` dispatch the same event locally
exactly once (its action trace is exactly one `dispatchEvent` pass) and
succeed, and every currently registered matching subscription whose sink
accepts the send observes the event. -/
theorem publish_transport_and_loopback (e : GroupEvent) (sendOk : Nat → Bool)
    (peerOf : Nat → String) (st : RegistryState) :
    Publish (some e) false sendOk peerOf st = (st, [], PublishResult.errInternalSend) ∧
    (Publish (some e) true sendOk peerOf st).2.1 = (dispatchEvent sendOk peerOf st e).2.1 ∧
    (Publish (some e) true sendOk peerOf st).2.2 = PublishResult.ok ∧
    (∀ sub, sub ∈ (st.subscribers e.destination).getD [] →
        (sub.req.event = V1Event.unspecified ∨ sub.req.event = (toV1SubscribeResponse e).event) →
        sendOk sub.stream = true →
        DispatchAction.sent sub (toV1SubscribeResponse e)
          ∈ (Publish (some e) true sendOk peerOf st).2.1) ∧
    (∀ sub, sub ∈ st.sniffers →
        (sub.req.event = V1Event.unspecified ∨ sub.req.event = (toV1SubscribeResponse e).event) →
        sendOk sub.stream = true →
        DispatchAction.sent sub (toV1SubscribeResponse e)
          ∈ (Publish (some e) true sendOk peerOf st).2.1) := by
  refine ⟨Publish_sendFail e sendOk peerOf st, ?_, ?_, ?_, ?_⟩
  · rw [Publish_sendOk]
  · rw [Publish_sendOk]
  · intro sub hmem hpass hok
    rw [Publish_sendOk]
    dsimp only
    rw [dispatchEvent_eq]
    dsimp only
    exact List.mem_append_left _
      (mem_dispatchPhase.mpr ⟨sub, hmem, dispatchSendOne_pass_ok hpass hok⟩)
  · intro sub hmem hpass hok
    rw [Publish_sendOk]
    dsimp only
    rw [dispatchEvent_eq]
    dsimp only
    exact List.mem_append_right _
      (mem_dispatchPhase.mpr ⟨sub, hmem, dispatchSendOne_pass_ok hpass hok⟩)

/-- C7 witness: with the bus send succeeding, the topic-5 wildcard
subscriber observes the published Write event. -/
theorem publish_transport_and_loopback_witness :
    DispatchAction.sent subW (toV1SubscribeResponse eW)
      ∈ (Publish (some eW) true allOk peerW stW).2.1 :=
  (publish_transport_and_loopback eW allOk peerW stW).2.2.2.1 subW
    (by simp [stW, eW, subW]) (Or.inl rfl) rfl

/-- C8: per-sink send-failure isolation. A matching handle whose sink
rejects the send gets exactly the log action carrying its peer label and
is never sent the event; matching handles whose sinks accept are still
sent the event; each handle receives exactly one attempt per occurrence in
the enumerated slice (no retries); dispatch never modifies the registry
(no removal); and send failures never fail the triggering `Publish` or the
bus-reader loop. -/
theorem dispatch_send_failure_isolated (sendOk : Nat → Bool) (peerOf : Nat → String) :
    (∀ subs resp sub, sub ∈ subs →
        (sub.req.event = V1Event.unspecified ∨ sub.req.event = resp.event) →
        sendOk sub.stream = false →
        DispatchAction.logFailure (peerOf sub.stream) sub
            ∈ dispatchPhase sendOk peerOf subs resp ∧
        (∀ r, DispatchAction.sent sub r ∉ dispatchPhase sendOk peerOf subs resp)) ∧
    (∀ subs resp sub, sub ∈ subs →
        (sub.req.event = V1Event.unspecified ∨ sub.req.event = resp.event) →
        sendOk sub.stream = true →
        DispatchAction.sent sub resp ∈ dispatchPhase sendOk peerOf subs resp) ∧
    (∀ subs resp sub,
        (sub.req.event = V1Event.unspecified ∨ sub.req.event = resp.event) →
        attemptsTo sub (dispatchPhase sendOk peerOf subs resp) = subs.count sub) ∧
    (∀ st e, (dispatchEvent sendOk peerOf st e).1 = st) ∧
    (∀ e st, (Publish (some e) true sendOk peerOf st).2.2 = PublishResult.ok) ∧
    (∀ st events, (busMessageReader sendOk peerOf st events).2.2 = none) := by
  refine ⟨?_, ?_, ?_, ?_, ?_, ?_⟩
  · intro subs resp sub hmem hpass hfail
    constructor
    · exact mem_dispatchPhase.mpr ⟨sub, hmem, dispatchSendOne_pass_fail hpass hfail⟩
    · intro r hr
      rcases mem_dispatchPhase.mp hr with ⟨sub', -, heq⟩
      rcases dispatchSendOne_sent_inv heq with ⟨rfl, -, -, hok⟩
      rw [hok] at hfail
      cases hfail
  · intro subs resp sub hmem hpass hok
    exact mem_dispatchPhase.mpr ⟨sub, hmem, dispatchSendOne_pass_ok hpass hok⟩
  · intro subs resp sub hpass
    rw [attemptsTo_phase sendOk peerOf resp sub subs, if_pos hpass]
  · intro st e
    rw [dispatchEvent_eq]
  · intro e st
    rw [Publish_sendOk]
  · exact fun st events => busMessageReader_err_none sendOk peerOf events st

/-- C8 witness: with every sink failing, the matching wildcard subscriber
gets the logged failure carrying its peer label. -/
theorem dispatch_send_failure_isolated_witness :
    DispatchAction.logFailure (peerW subW.stream) subW
      ∈ dispatchPhase allFail peerW [subW] (toV1SubscribeResponse eW) :=
  ((dispatch_send_failure_isolated allFail peerW).1 [subW] (toV1SubscribeResponse eW) subW
    (by simp) (Or.inl rfl) rfl).1

/-- C9 counterexample: the claim quantifies over every bus event the
dispatcher converts, "whatever its command value"; but for a bus event
whose command value (here 3) is none of GroupRead / GroupResponse /
GroupWrite, `toV1SubscribeResponse` keeps its initial
`EVENT_UNSPECIFIED`, and the dispatcher delivers that message to a
wildcard-filtered subscriber — an event with kind Unspecified on the
wire. -/
theorem unspecified_kind_delivered_counterexample :
    DispatchAction.sent subW (toV1SubscribeResponse eOther)
        ∈ (dispatchEvent allOk peerW stW eOther).2.1 ∧
    (toV1SubscribeResponse eOther).event = V1Event.unspecified := by
  constructor
  · rw [dispatchEvent_eq]
    dsimp only
    refine List.mem_append_left _ (mem_dispatchPhase.mpr ⟨subW, ?_, ?_⟩)
    · simp [stW, eOther]
    · exact dispatchSendOne_pass_ok (Or.inl rfl) rfl
  · rfl

/-- C9 (amended): for every bus event whose command value is one of the
three defined commands GroupRead, GroupResponse, GroupWrite, no delivered
message carries the kind Unspecified — Unspecified then occurs only as a
filter wildcard in requests. (Events with any other command value are
converted to kind Unspecified and delivered to wildcard-filtered
handles.) -/
theorem known_command_kind_never_unspecified (sendOk : Nat → Bool) (peerOf : Nat → String)
    (st : RegistryState) (e : GroupEvent)
    (hcmd : e.command = GroupRead ∨ e.command = GroupResponse ∨ e.command = GroupWrite) :
    ∀ sub r, DispatchAction.sent sub r ∈ (dispatchEvent sendOk peerOf st e).2.1 →
      r.event ≠ V1Event.unspecified := by
  intro sub r hmem
  rw [dispatchEvent_eq] at hmem
  dsimp only at hmem
  rw [List.mem_append] at hmem
  have hr : r = toV1SubscribeResponse e := by
    rcases hmem with hmem | hmem <;>
    · rcases mem_dispatchPhase.mp hmem with ⟨sub', -, heq⟩
      exact (dispatchSendOne_sent_inv heq).2.1
  subst hr
  unfold toV1SubscribeResponse
  dsimp only
  rcases hcmd with h | h | h <;>
    simp [h, GroupRead, GroupResponse, GroupWrite]

/-- C9 witness: the Write event delivered to the topic-5 subscriber does
not carry the Unspecified kind. -/
theorem known_command_kind_never_unspecified_witness :
    (toV1SubscribeResponse eW).event ≠ V1Event.unspecified :=
  known_command_kind_never_unspecified allOk peerW stW eW (Or.inr (Or.inr rfl)) subW
    (toV1SubscribeResponse eW) (by decide)

/-- C10 (implicit): `dispatchEvent` returns nil for every event and every
registry state — both dispatch phases swallow per-sink failures and have
no other error source — so `Publish` can never take its
Internal-dispatch-error branch, and the bus reader loop never terminates
with a dispatch error: it returns nil for every finite inbound prefix,
i.e. only through context cancellation. -/
theorem dispatch_never_errors (sendOk : Nat → Bool) (peerOf : Nat → String) :
    (∀ st e, (dispatchEvent sendOk peerOf st e).2.2 = none) ∧
    (∀ parsed tunnelOk st,
        (Publish parsed tunnelOk sendOk peerOf st).2.2 ≠ PublishResult.errInternalDispatch) ∧
    (∀ st events, (busMessageReader sendOk peerOf st events).2.2 = none) := by
  refine ⟨?_, ?_, ?_⟩
  · intro st e
    rw [dispatchEvent_eq]
  · intro parsed tunnelOk st
    cases parsed with
    | none => simp [Publish]
    | some e =>
      cases tunnelOk with
      | false =>
        rw [Publish_sendFail]
        simp
      | true =>
        rw [Publish_sendOk]
        simp
  · exact fun st events => busMessageReader_err_none sendOk peerOf events st

/-- C10 witness: at a concrete registry, event and all-failing sinks, the
`Publish` dispatch step still does not yield the Internal dispatch
error. -/
theorem dispatch_never_errors_witness :
    (Publish (some eW) true allFail peerW stW).2.2 ≠ PublishResult.errInternalDispatch :=
  (dispatch_never_errors allFail peerW).2.1 (some eW) true stW

end Knxrpc
